import Mathlib

/-!
# Investment Portfolio Simulator — verification development

Shallow embedding of the Monte Carlo investment simulator
(`model.py` and `helpers.py`), with Python floats modelled as `ℚ`
(exact field arithmetic) and the shared pseudo-random source modelled
as an explicit oracle of standard-normal draws. Exceptions raised by
`numpy` are modelled with `Except` / `Option`.
-/

/-- The flat parameter mapping `inputs` handed to the engine
(`initial_investment`, `monthly_contribution`, `yearly_bonus`,
`years`, `estimated_roi`, `volatility`). -/
structure Inputs where
  initial_investment : ℚ
  monthly_contribution : ℚ
  yearly_bonus : ℚ
  years : ℕ
  estimated_roi : ℚ
  volatility : ℚ
deriving Repr, DecidableEq

/-- Model of `helpers.get_random_returns`: `np.random.normal(loc, scale, size) + 1`.
`np.random.normal` raises `ValueError: scale < 0` on a negative standard
deviation; otherwise each sample is `loc + scale * z` for a fresh
standard-normal draw `z`, supplied here by the oracle `draw`. -/
def get_random_returns (draw : ℕ → ℚ) (years : ℕ)
    (estimated_roi : ℚ) (volatility : ℚ) : Except String (List ℚ) :=
  if volatility < 0 then Except.error "scale < 0"
  else Except.ok ((List.range years).map
    (fun i => (estimated_roi + volatility * draw i) + 1))

/-- Model of `np.mean`: sum divided by length. (`np.mean` of an empty array is
NaN; the engine only takes the value at `years ≥ 1` in the claims
proved below.) -/
def np_mean (xs : List ℚ) : ℚ := xs.sum / xs.length

/-- The inner monthly loop of `model.perform_simulation`: `k` repetitions
of `balance += monthly_contribution; balance *= (1 + monthly_rate)`. -/
def monthLoop (monthly monthly_rate : ℚ) : ℕ → ℚ → ℚ
  | 0, b => b
  | k + 1, b => monthLoop monthly monthly_rate k ((b + monthly) * (1 + monthly_rate))

/-- The yearly loop of `model.perform_simulation`: for each annual return
multiplier, 12 monthly steps at rate `(annual_return - 1) / 12`, then the
yearly bonus, appending each year-end balance to the history. Returns the
final balance together with the appended part of the history. -/
def yearLoop (monthly bonus : ℚ) (balance : ℚ) : List ℚ → ℚ × List ℚ
  | [] => (balance, [])
  | r :: rs =>
    let b := monthLoop monthly ((r - 1) / 12) 12 balance + bonus
    let p := yearLoop monthly bonus b rs
    (p.1, b :: p.2)

/-- Result triple of one run of `perform_simulation`:
`(balance, history, mean_return)`. -/
structure SimOutcome where
  final_balance : ℚ
  history : List ℚ
  mean_return : ℚ
deriving Repr, DecidableEq

/-- The deterministic core of `model.perform_simulation`, i.e. everything
after the call to `get_random_returns`, as a function of the drawn
return-multiplier sequence. -/
def perform_core (inp : Inputs) (rs : List ℚ) : SimOutcome :=
  { final_balance := (yearLoop inp.monthly_contribution inp.yearly_bonus
      inp.initial_investment rs).1
    history := inp.initial_investment :: (yearLoop inp.monthly_contribution
      inp.yearly_bonus inp.initial_investment rs).2
    mean_return := (np_mean rs - 1) * 100 }

/-- Model of `model.perform_simulation`: draw the return multipliers, then run the
balance recurrence. -/
def perform_simulation (inp : Inputs) (draw : ℕ → ℚ) :
    Except String SimOutcome :=
  match get_random_returns draw inp.years inp.estimated_roi inp.volatility with
  | Except.error e => Except.error e
  | Except.ok rs => Except.ok (perform_core inp rs)

/-- Interpolation kernel of `np.percentile` with the default linear method, at
virtual position `q / 100 * (n - 1)` in the sorted data: raises on an
empty array (`none`), otherwise interpolates between the two neighbouring
order statistics. -/
def interpAt (s : List ℚ) (pos : ℚ) : ℚ :=
  let lo := (⌊pos⌋).toNat
  let hi := min (lo + 1) (s.length - 1)
  s.getD lo 0 + (pos - (lo : ℚ)) * (s.getD hi 0 - s.getD lo 0)

/-- Model of `np.percentile xs q` (linear interpolation). `none` models the
`IndexError` numpy raises on an empty input array. -/
def np_percentile (xs : List ℚ) (q : ℚ) : Option ℚ :=
  if xs.isEmpty then none
  else some (interpAt (List.insertionSort (· ≤ ·) xs)
    (q * ((xs.length : ℚ) - 1) / 100))

/-- Model of `helpers.get_confidence_levels`: the 2.5th and 97.5th percentiles of
the final balances, `none` when a percentile of an empty collection is
requested. -/
def get_confidence_levels (final_balances : List ℚ) : Option (ℚ × ℚ) :=
  match np_percentile final_balances 97.5, np_percentile final_balances 2.5 with
  | some upper, some lower => some (lower, upper)
  | _, _ => none

/-- Python `list(zip(*results))`: the transpose truncated to the shortest
row; `zip` of zero iterables is empty. -/
def pyZip (ls : List (List ℚ)) : List (List ℚ) :=
  match ls with
  | [] => []
  | l :: rest =>
    let m := rest.foldl (fun acc t => min acc t.length) l.length
    (List.range m).map (fun i => ls.map (fun t => t.getD i 0))

/-- One row of the yearly percentile table built by
`helpers.get_yearly_percentiles`. -/
structure PercRow where
  year : ℕ
  p95 : ℚ
  p75 : ℚ
  med : ℚ
  p25 : ℚ
  p5 : ℚ
  invested : ℚ
deriving Repr, DecidableEq

/-- A dummy row used only as the default of `List.getD`; every claim
below indexes within bounds. -/
def dummyRow : PercRow := ⟨0, 0, 0, 0, 0, 0, 0⟩

/-- Model of `helpers.get_yearly_percentiles`: transpose the trajectories, then for
each year compute the five percentiles of the cross-path balances and the
deterministic invested amount. Each transposed row is nonempty whenever
`results` is, so the `getD 0` fallback (numpy's empty-array error) is
never taken on a produced row. -/
def get_yearly_percentiles (results : List (List ℚ)) (inp : Inputs) :
    List PercRow :=
  let rot := pyZip results
  (List.range rot.length).map (fun i =>
    { year := i
      p95 := (np_percentile (rot.getD i []) 95).getD 0
      p75 := (np_percentile (rot.getD i []) 75).getD 0
      med := (np_percentile (rot.getD i []) 50).getD 0
      p25 := (np_percentile (rot.getD i []) 25).getD 0
      p5 := (np_percentile (rot.getD i []) 5).getD 0
      invested := inp.initial_investment +
        (inp.monthly_contribution * 12 + inp.yearly_bonus) * (i : ℚ) })

/-- The dictionary returned by `model.perform_monte_carlo`. -/
structure MCResult where
  final_balances : List ℚ
  results : List (List ℚ)
  yearly_percentiles : List PercRow
  lower_confidence : ℚ
  upper_confidence : ℚ
  mean_returns : List ℚ
deriving Repr, DecidableEq

/-- The `for _ in range(n)` loop of `perform_monte_carlo`, run over an
explicit list of path indices, each path using its own slice of the draw
oracle; the first exception aborts the loop. -/
def runPaths (inp : Inputs) (draws : ℕ → ℕ → ℚ) :
    List ℕ → Except String (List SimOutcome)
  | [] => Except.ok []
  | k :: ks =>
    match perform_simulation inp (draws k) with
    | Except.error e => Except.error e
    | Except.ok o =>
      match runPaths inp draws ks with
      | Except.error e => Except.error e
      | Except.ok os => Except.ok (o :: os)

/-- Model of `model.perform_monte_carlo`: run `n` paths, collect final balances,
trajectories and mean returns, then the confidence levels and the yearly
percentile table. With `n = 0` the confidence computation hits numpy's
empty-array `IndexError`. -/
def perform_monte_carlo (inp : Inputs) (n : ℕ) (draws : ℕ → ℕ → ℚ) :
    Except String MCResult :=
  match runPaths inp draws (List.range n) with
  | Except.error e => Except.error e
  | Except.ok outs =>
    let final_balances := outs.map SimOutcome.final_balance
    let results := outs.map SimOutcome.history
    let mean_returns := outs.map SimOutcome.mean_return
    match get_confidence_levels final_balances with
    | none => Except.error "cannot do a non-empty take from an empty axes"
    | some lu =>
      Except.ok
        { final_balances := final_balances
          results := results
          yearly_percentiles := get_yearly_percentiles results inp
          lower_confidence := lu.1
          upper_confidence := lu.2
          mean_returns := mean_returns }

/-- The range invariants of §3 of the data model: non-negative monetary
fields, positive horizon, non-negative volatility. -/
def validInputs (inp : Inputs) : Prop :=
  0 ≤ inp.initial_investment ∧ 0 ≤ inp.monthly_contribution ∧
  0 ≤ inp.yearly_bonus ∧ 1 ≤ inp.years ∧ 0 ≤ inp.volatility

instance (inp : Inputs) : Decidable (validInputs inp) := by
  unfold validInputs; infer_instance

/-- The return-multiplier sequence that `get_random_returns` produces from
the draw oracle when the volatility is admissible. -/
def returnsOf (inp : Inputs) (draw : ℕ → ℚ) : List ℚ :=
  (List.range inp.years).map (fun i => (inp.estimated_roi + inp.volatility * draw i) + 1)

/-- The list of per-path outcomes a successful `n`-path Monte Carlo run
collects, in generation order. -/
def outsOf (inp : Inputs) (draws : ℕ → ℕ → ℚ) (n : ℕ) : List SimOutcome :=
  (List.range n).map (fun k => perform_core inp (returnsOf inp (draws k)))

theorem monthLoop_eq_iterate (m r : ℚ) (k : ℕ) (b : ℚ) :
    monthLoop m r k b = (fun x => (x + m) * (1 + r))^[k] b := by
  induction k generalizing b with
  | zero => rfl
  | succ k ih => rw [monthLoop, ih, Function.iterate_succ_apply]

theorem yearLoop_snd_length (m bo bal : ℚ) (rs : List ℚ) :
    (yearLoop m bo bal rs).2.length = rs.length := by
  induction rs generalizing bal with
  | nil => rfl
  | cons r rs ih => simp [yearLoop, ih]

theorem yearLoop_hist_getD_succ (m bo : ℚ) (rs : List ℚ) (bal : ℚ) (i : ℕ)
    (hi : i < rs.length) :
    (bal :: (yearLoop m bo bal rs).2).getD (i + 1) 0 =
      monthLoop m ((rs.getD i 0 - 1) / 12) 12
        ((bal :: (yearLoop m bo bal rs).2).getD i 0) + bo := by
  induction rs generalizing bal i with
  | nil => simp at hi
  | cons r rs ih =>
    cases i with
    | zero => simp [yearLoop]
    | succ i =>
      have hi' : i < rs.length := by simpa using hi
      simpa [yearLoop] using ih (monthLoop m ((r - 1) / 12) 12 bal + bo) i hi'

theorem yearLoop_fst_eq_getD (m bo : ℚ) (rs : List ℚ) (bal : ℚ) :
    (yearLoop m bo bal rs).1 = (bal :: (yearLoop m bo bal rs).2).getD rs.length 0 := by
  induction rs generalizing bal with
  | nil => rfl
  | cons r rs ih => simpa [yearLoop] using ih (monthLoop m ((r - 1) / 12) 12 bal + bo)

theorem get_random_returns_ok (draw : ℕ → ℚ) (y : ℕ) (roi : ℚ) {v : ℚ}
    (hv : 0 ≤ v) :
    get_random_returns draw y roi v =
      Except.ok ((List.range y).map (fun i => (roi + v * draw i) + 1)) := by
  simp [get_random_returns, not_lt.mpr hv]

theorem perform_simulation_ok {inp : Inputs} (hv : 0 ≤ inp.volatility)
    (draw : ℕ → ℚ) :
    perform_simulation inp draw = Except.ok (perform_core inp (returnsOf inp draw)) := by
  rw [perform_simulation, get_random_returns_ok _ _ _ hv]
  rfl

theorem runPaths_ok {inp : Inputs} (hv : 0 ≤ inp.volatility)
    (draws : ℕ → ℕ → ℚ) (ks : List ℕ) :
    runPaths inp draws ks =
      Except.ok (ks.map (fun k => perform_core inp (returnsOf inp (draws k)))) := by
  induction ks with
  | nil => rfl
  | cons k ks ih => simp [runPaths, perform_simulation_ok hv, ih]

theorem sorted_getD_mono {s : List ℚ} (hs : List.Sorted (· ≤ ·) s)
    {i j : ℕ} (hij : i ≤ j) (hj : j < s.length) :
    s.getD i 0 ≤ s.getD j 0 := by
  have hi : i < s.length := lt_of_le_of_lt hij hj
  rw [List.getD_eq_getElem s 0 hi, List.getD_eq_getElem s 0 hj]
  have := hs.rel_get_of_le (a := ⟨i, hi⟩) (b := ⟨j, hj⟩)
    (by simpa [Fin.mk_le_mk] using hij)
  simpa [List.get_eq_getElem] using this

theorem floor_le_length_sub_one {p : ℚ} {n : ℕ} (hub : p ≤ (n : ℚ) - 1) :
    ⌊p⌋ ≤ (n : ℤ) - 1 := by
  have h2 : ((n : ℚ) - 1) = (((n : ℤ) - 1 : ℤ) : ℚ) := by push_cast; ring
  calc ⌊p⌋ ≤ ⌊(n : ℚ) - 1⌋ := Int.floor_le_floor hub
    _ = (n : ℤ) - 1 := by rw [h2, Int.floor_intCast]

theorem interpAt_bounds {s : List ℚ} (hs : List.Sorted (· ≤ ·) s) (hne : s ≠ [])
    {p : ℚ} (h0 : 0 ≤ p) (hub : p ≤ (s.length : ℚ) - 1) :
    s.getD (⌊p⌋).toNat 0 ≤ interpAt s p ∧
      interpAt s p ≤ s.getD (min ((⌊p⌋).toNat + 1) (s.length - 1)) 0 := by
  have hn1 : 0 < s.length := List.length_pos.mpr hne
  have hfl0 : 0 ≤ ⌊p⌋ := Int.floor_nonneg.mpr h0
  have hflub : ⌊p⌋ ≤ (s.length : ℤ) - 1 := floor_le_length_sub_one hub
  have hcast : ((⌊p⌋.toNat : ℕ) : ℚ) = ((⌊p⌋ : ℤ) : ℚ) := by
    exact_mod_cast congrArg (fun z : ℤ => (z : ℚ)) (Int.toNat_of_nonneg hfl0)
  have hlo_le : ((⌊p⌋.toNat : ℕ) : ℚ) ≤ p := by rw [hcast]; exact Int.floor_le p
  have hlo_lt1 : p < ((⌊p⌋.toNat : ℕ) : ℚ) + 1 := by rw [hcast]; exact Int.lt_floor_add_one p
  have hlo_lt : ⌊p⌋.toNat < s.length := by omega
  have hhi_lt : min (⌊p⌋.toNat + 1) (s.length - 1) < s.length := by omega
  have hlo_le_hi : ⌊p⌋.toNat ≤ min (⌊p⌋.toNat + 1) (s.length - 1) := by omega
  have hval : s.getD ⌊p⌋.toNat 0 ≤ s.getD (min (⌊p⌋.toNat + 1) (s.length - 1)) 0 :=
    sorted_getD_mono hs hlo_le_hi hhi_lt
  rw [interpAt]
  constructor
  · nlinarith [mul_nonneg (by linarith : (0:ℚ) ≤ p - (⌊p⌋.toNat : ℚ))
      (by linarith : (0:ℚ) ≤ s.getD (min (⌊p⌋.toNat + 1) (s.length - 1)) 0 - s.getD ⌊p⌋.toNat 0)]
  · nlinarith [mul_le_of_le_one_left
      (by linarith : (0:ℚ) ≤ s.getD (min (⌊p⌋.toNat + 1) (s.length - 1)) 0 - s.getD ⌊p⌋.toNat 0)
      (by linarith : p - ((⌊p⌋.toNat : ℕ) : ℚ) ≤ 1)]

theorem interpAt_mono {s : List ℚ} (hs : List.Sorted (· ≤ ·) s) (hne : s ≠ [])
    {p1 p2 : ℚ} (h0 : 0 ≤ p1) (h12 : p1 ≤ p2) (hub : p2 ≤ (s.length : ℚ) - 1) :
    interpAt s p1 ≤ interpAt s p2 := by
  have hn1 : 0 < s.length := List.length_pos.mpr hne
  have h0' : 0 ≤ p2 := le_trans h0 h12
  have hub1 : p1 ≤ (s.length : ℚ) - 1 := le_trans h12 hub
  have hfl12 : ⌊p1⌋ ≤ ⌊p2⌋ := Int.floor_le_floor h12
  have hlo12 : ⌊p1⌋.toNat ≤ ⌊p2⌋.toNat := by omega
  have hfl0 : 0 ≤ ⌊p1⌋ := Int.floor_nonneg.mpr h0
  have hflub2 : ⌊p2⌋ ≤ (s.length : ℤ) - 1 := floor_le_length_sub_one hub
  have hlo2_lt : ⌊p2⌋.toNat < s.length := by omega
  rcases eq_or_lt_of_le hlo12 with heq | hlt
  · have hcast : ((⌊p1⌋.toNat : ℕ) : ℚ) = ((⌊p1⌋ : ℤ) : ℚ) := by
      exact_mod_cast congrArg (fun z : ℤ => (z : ℚ)) (Int.toNat_of_nonneg hfl0)
    have hlo_lt : ⌊p1⌋.toNat < s.length := by omega
    have hhi_lt : min (⌊p1⌋.toNat + 1) (s.length - 1) < s.length := by omega
    have hlo_le_hi : ⌊p1⌋.toNat ≤ min (⌊p1⌋.toNat + 1) (s.length - 1) := by omega
    have hval : s.getD ⌊p1⌋.toNat 0 ≤ s.getD (min (⌊p1⌋.toNat + 1) (s.length - 1)) 0 :=
      sorted_getD_mono hs hlo_le_hi hhi_lt
    rw [interpAt, interpAt, ← heq]
    nlinarith [mul_le_mul_of_nonneg_right h12
      (by linarith : (0:ℚ) ≤ s.getD (min (⌊p1⌋.toNat + 1) (s.length - 1)) 0 - s.getD ⌊p1⌋.toNat 0)]
  · have hB := (interpAt_bounds hs hne h0 hub1).2
    have hC := (interpAt_bounds hs hne h0' hub).1
    have hhi1_le : min (⌊p1⌋.toNat + 1) (s.length - 1) ≤ ⌊p2⌋.toNat := by omega
    calc interpAt s p1 ≤ s.getD (min (⌊p1⌋.toNat + 1) (s.length - 1)) 0 := hB
      _ ≤ s.getD ⌊p2⌋.toNat 0 := sorted_getD_mono hs hhi1_le hlo2_lt
      _ ≤ interpAt s p2 := hC

theorem np_percentile_of_ne_nil {xs : List ℚ} (h : xs ≠ []) (q : ℚ) :
    np_percentile xs q = some (interpAt (List.insertionSort (· ≤ ·) xs)
      (q * ((xs.length : ℚ) - 1) / 100)) := by
  have hemp : xs.isEmpty = false := by simpa [List.isEmpty_iff] using h
  simp [np_percentile, hemp]

theorem np_percentile_mono {xs : List ℚ} (hne : xs ≠ []) {q1 q2 : ℚ}
    (h0 : 0 ≤ q1) (h12 : q1 ≤ q2) (h100 : q2 ≤ 100) :
    (np_percentile xs q1).getD 0 ≤ (np_percentile xs q2).getD 0 := by
  rw [np_percentile_of_ne_nil hne, np_percentile_of_ne_nil hne]
  simp only [Option.getD_some]
  have hs : List.Sorted (· ≤ ·) (List.insertionSort (· ≤ ·) xs) :=
    List.sorted_insertionSort _ xs
  have hslen : (List.insertionSort (· ≤ ·) xs).length = xs.length :=
    List.length_insertionSort _ xs
  have hsne : List.insertionSort (· ≤ ·) xs ≠ [] := by
    intro hcon
    exact hne (List.length_eq_zero.mp (by rw [← hslen, hcon]; rfl))
  have hn1 : 1 ≤ xs.length := List.length_pos.mpr hne
  have hn0 : (0:ℚ) ≤ (xs.length : ℚ) - 1 := by
    have : (1:ℚ) ≤ (xs.length : ℚ) := by exact_mod_cast hn1
    linarith
  have hp0 : 0 ≤ q1 * ((xs.length : ℚ) - 1) / 100 :=
    div_nonneg (mul_nonneg h0 hn0) (by norm_num)
  have hp12 : q1 * ((xs.length : ℚ) - 1) / 100 ≤ q2 * ((xs.length : ℚ) - 1) / 100 := by
    gcongr
  have hpub : q2 * ((xs.length : ℚ) - 1) / 100 ≤
      ((List.insertionSort (· ≤ ·) xs).length : ℚ) - 1 := by
    rw [hslen]
    calc q2 * ((xs.length : ℚ) - 1) / 100 ≤ 100 * ((xs.length : ℚ) - 1) / 100 := by gcongr
      _ = (xs.length : ℚ) - 1 := by ring
  exact interpAt_mono hs hsne hp0 hp12 hpub

theorem np_percentile_singleton (x q : ℚ) : np_percentile [x] q = some x := by
  have h : (q * (((1:ℕ) : ℚ) - 1) / 100) = 0 := by norm_num
  simp [np_percentile, interpAt, List.insertionSort, List.orderedInsert, h]

theorem getD_np_percentile_singleton (x q : ℚ) :
    (np_percentile [x] q).getD 0 = x := by
  rw [np_percentile_singleton]
  rfl

theorem get_confidence_levels_of_ne_nil {xs : List ℚ} (h : xs ≠ []) :
    get_confidence_levels xs =
      some ((np_percentile xs 2.5).getD 0, (np_percentile xs 97.5).getD 0) := by
  simp [get_confidence_levels, np_percentile_of_ne_nil h]

theorem perform_monte_carlo_ok {inp : Inputs} (hv : 0 ≤ inp.volatility)
    (draws : ℕ → ℕ → ℚ) {n : ℕ} (hn : 1 ≤ n) :
    perform_monte_carlo inp n draws = Except.ok
      { final_balances := (outsOf inp draws n).map SimOutcome.final_balance
        results := (outsOf inp draws n).map SimOutcome.history
        yearly_percentiles := get_yearly_percentiles
          ((outsOf inp draws n).map SimOutcome.history) inp
        lower_confidence :=
          (np_percentile ((outsOf inp draws n).map SimOutcome.final_balance) 2.5).getD 0
        upper_confidence :=
          (np_percentile ((outsOf inp draws n).map SimOutcome.final_balance) 97.5).getD 0
        mean_returns := (outsOf inp draws n).map SimOutcome.mean_return } := by
  have hne : ((List.range n).map
      (fun k => perform_core inp (returnsOf inp (draws k)))).map
        SimOutcome.final_balance ≠ [] := by
    intro hcon
    have : n = 0 := by simpa [List.range_eq_nil] using hcon
    omega
  simp only [perform_monte_carlo, runPaths_ok hv,
    get_confidence_levels_of_ne_nil hne]
  rfl

theorem getD_map_range {α : Type _} (f : ℕ → α) (d : α) {m i : ℕ} (h : i < m) :
    ((List.range m).map f).getD i d = f i := by
  rw [List.getD_eq_getElem _ _ (by simpa using h)]
  simp

theorem foldl_min_const {L : ℕ} :
    ∀ ts : List (List ℚ), (∀ t ∈ ts, t.length = L) →
      ts.foldl (fun acc t => min acc t.length) L = L := by
  intro ts
  induction ts with
  | nil => intro _; rfl
  | cons t ts ih =>
    intro h
    have ht : t.length = L := h t (by simp)
    have hrec := ih (fun u hu => h u (by simp [hu]))
    simp [List.foldl_cons, ht, hrec]

theorem pyZip_length_of_const {L : ℕ} {ls : List (List ℚ)} (hne : ls ≠ [])
    (hlen : ∀ t ∈ ls, t.length = L) : (pyZip ls).length = L := by
  cases ls with
  | nil => exact absurd rfl hne
  | cons l rest =>
    have hl : l.length = L := hlen l (by simp)
    have hfold : rest.foldl (fun acc t => min acc t.length) l.length = L := by
      rw [hl]
      exact foldl_min_const rest (fun u hu => hlen u (by simp [hu]))
    simp [pyZip, hfold]

theorem pyZip_getD {l : List ℚ} {rest : List (List ℚ)} {i : ℕ}
    (hi : i < (pyZip (l :: rest)).length) :
    (pyZip (l :: rest)).getD i [] = (l :: rest).map (fun t => t.getD i 0) := by
  have hm : i < rest.foldl (fun acc t => min acc t.length) l.length := by
    simpa [pyZip] using hi
  exact getD_map_range _ _ hm

theorem get_yearly_percentiles_length (results : List (List ℚ)) (inp : Inputs) :
    (get_yearly_percentiles results inp).length = (pyZip results).length := by
  simp [get_yearly_percentiles]

theorem get_yearly_percentiles_getD {results : List (List ℚ)} {inp : Inputs}
    {i : ℕ} (hi : i < (pyZip results).length) :
    (get_yearly_percentiles results inp).getD i dummyRow =
      { year := i
        p95 := (np_percentile ((pyZip results).getD i []) 95).getD 0
        p75 := (np_percentile ((pyZip results).getD i []) 75).getD 0
        med := (np_percentile ((pyZip results).getD i []) 50).getD 0
        p25 := (np_percentile ((pyZip results).getD i []) 25).getD 0
        p5 := (np_percentile ((pyZip results).getD i []) 5).getD 0
        invested := inp.initial_investment +
          (inp.monthly_contribution * 12 + inp.yearly_bonus) * (i : ℚ) } := by
  exact getD_map_range _ _ hi

/-- C1: For every horizon `H ≥ 1`, every parameter set and every
return-multiplier sequence of length `H`, the Path Simulator's trajectory
has the initial investment at year 0, and the value at year `i + 1` is
obtained from the value at year `i` by 12 iterations of (add the monthly
contribution, then multiply by `1 + (multiplier_i - 1) / 12`), followed by
adding the yearly bonus once. -/
theorem C1_trajectory_recurrence (inp : Inputs) (rs : List ℚ) (H : ℕ)
    (_hH : 1 ≤ H) (hlen : rs.length = H) :
    (perform_core inp rs).history.getD 0 0 = inp.initial_investment ∧
    ∀ i, i < H →
      (perform_core inp rs).history.getD (i + 1) 0 =
        (fun b => (b + inp.monthly_contribution) *
          (1 + (rs.getD i 0 - 1) / 12))^[12]
          ((perform_core inp rs).history.getD i 0) + inp.yearly_bonus := by
  refine ⟨rfl, ?_⟩
  intro i hi
  have hi' : i < rs.length := by omega
  have h := yearLoop_hist_getD_succ inp.monthly_contribution inp.yearly_bonus
    rs inp.initial_investment i hi'
  rw [show (perform_core inp rs).history = inp.initial_investment ::
    (yearLoop inp.monthly_contribution inp.yearly_bonus
      inp.initial_investment rs).2 from rfl]
  rw [h, monthLoop_eq_iterate]

theorem C1_trajectory_recurrence_witness :
    (perform_core ⟨50000, 1000, 5000, 1, 2/25, 0⟩ [27/25]).history.getD (0 + 1) 0 =
      (fun b => (b + (1000 : ℚ)) * (1 + (((27 : ℚ)/25) - 1) / 12))^[12]
        ((perform_core ⟨50000, 1000, 5000, 1, 2/25, 0⟩ [27/25]).history.getD 0 0)
        + 5000 := by
  have h := (C1_trajectory_recurrence ⟨50000, 1000, 5000, 1, 2/25, 0⟩ [27/25] 1
    (by decide) rfl).2 0 (by decide)
  simpa using h

/-- C9: For every return-multiplier sequence of length `H ≥ 1`, the
per-path mean return reported by the Path Simulator is the arithmetic
average of the `H` multipliers, minus 1, times 100. -/
theorem C9_mean_return (inp : Inputs) (rs : List ℚ) (H : ℕ) (_hH : 1 ≤ H)
    (hlen : rs.length = H) :
    (perform_core inp rs).mean_return = (rs.sum / (H : ℚ) - 1) * 100 := by
  simp [perform_core, np_mean, hlen]

theorem C9_mean_return_witness :
    (perform_core ⟨50000, 1000, 5000, 2, 2/25, 0⟩ [27/25, 9/10]).mean_return =
      (([27/25, 9/10] : List ℚ).sum / ((2 : ℕ) : ℚ) - 1) * 100 :=
  C9_mean_return ⟨50000, 1000, 5000, 2, 2/25, 0⟩ [27/25, 9/10] 2
    (by decide) rfl

/-- C3: For every parameter set and every collection of trajectories
(whatever number of paths and random draws produced it), row `i` of the
yearly percentile table has year index `i` and an invested entry equal to
`initial_investment + (monthly_contribution * 12 + yearly_bonus) * i` — a
function of the parameters and the year index alone, so the invested
column never depends on the random draws. -/
theorem C3_invested_column (inp : Inputs) (results : List (List ℚ)) (i : ℕ)
    (hi : i < (get_yearly_percentiles results inp).length) :
    ((get_yearly_percentiles results inp).getD i dummyRow).year = i ∧
    ((get_yearly_percentiles results inp).getD i dummyRow).invested =
      inp.initial_investment +
        (inp.monthly_contribution * 12 + inp.yearly_bonus) * (i : ℚ) := by
  have hi' : i < (pyZip results).length := by
    simpa [get_yearly_percentiles_length] using hi
  rw [get_yearly_percentiles_getD hi']
  exact ⟨rfl, rfl⟩

theorem C3_invested_column_witness :
    ((get_yearly_percentiles [[3, 7], [1, 9]]
        ⟨50000, 1000, 5000, 1, 2/25, 3/20⟩).getD 1 dummyRow).year = 1 ∧
    ((get_yearly_percentiles [[3, 7], [1, 9]]
        ⟨50000, 1000, 5000, 1, 2/25, 3/20⟩).getD 1 dummyRow).invested =
      (50000 : ℚ) + ((1000 : ℚ) * 12 + 5000) * ((1 : ℕ) : ℚ) :=
  C3_invested_column ⟨50000, 1000, 5000, 1, 2/25, 3/20⟩ [[3, 7], [1, 9]] 1
    (by decide)

/-- C4: For every non-empty collection of trajectories, every row of the
yearly percentile table is ordered: 5th ≤ 25th ≤ median ≤ 75th ≤ 95th
percentile of the cross-path balances at that year. -/
theorem C4_percentile_monotone (inp : Inputs) (results : List (List ℚ))
    (hne : results ≠ []) (i : ℕ)
    (hi : i < (get_yearly_percentiles results inp).length) :
    ((get_yearly_percentiles results inp).getD i dummyRow).p5 ≤
      ((get_yearly_percentiles results inp).getD i dummyRow).p25 ∧
    ((get_yearly_percentiles results inp).getD i dummyRow).p25 ≤
      ((get_yearly_percentiles results inp).getD i dummyRow).med ∧
    ((get_yearly_percentiles results inp).getD i dummyRow).med ≤
      ((get_yearly_percentiles results inp).getD i dummyRow).p75 ∧
    ((get_yearly_percentiles results inp).getD i dummyRow).p75 ≤
      ((get_yearly_percentiles results inp).getD i dummyRow).p95 := by
  have hi' : i < (pyZip results).length := by
    simpa [get_yearly_percentiles_length] using hi
  obtain ⟨l, rest, rfl⟩ : ∃ l rest, results = l :: rest := by
    cases results with
    | nil => exact absurd rfl hne
    | cons l rest => exact ⟨l, rest, rfl⟩
  have hrow : (pyZip (l :: rest)).getD i [] =
      (l :: rest).map (fun t => t.getD i 0) := pyZip_getD hi'
  have hrne : (pyZip (l :: rest)).getD i [] ≠ [] := by
    rw [hrow]; simp
  rw [get_yearly_percentiles_getD hi']
  refine ⟨?_, ?_, ?_, ?_⟩ <;>
    exact np_percentile_mono hrne (by norm_num) (by norm_num) (by norm_num)

theorem C4_percentile_monotone_witness :
    ((get_yearly_percentiles [[3, 7], [1, 9], [5, 2]]
        ⟨0, 0, 0, 1, 0, 0⟩).getD 0 dummyRow).p5 ≤
      ((get_yearly_percentiles [[3, 7], [1, 9], [5, 2]]
        ⟨0, 0, 0, 1, 0, 0⟩).getD 0 dummyRow).p25 ∧
    ((get_yearly_percentiles [[3, 7], [1, 9], [5, 2]]
        ⟨0, 0, 0, 1, 0, 0⟩).getD 0 dummyRow).p25 ≤
      ((get_yearly_percentiles [[3, 7], [1, 9], [5, 2]]
        ⟨0, 0, 0, 1, 0, 0⟩).getD 0 dummyRow).med ∧
    ((get_yearly_percentiles [[3, 7], [1, 9], [5, 2]]
        ⟨0, 0, 0, 1, 0, 0⟩).getD 0 dummyRow).med ≤
      ((get_yearly_percentiles [[3, 7], [1, 9], [5, 2]]
        ⟨0, 0, 0, 1, 0, 0⟩).getD 0 dummyRow).p75 ∧
    ((get_yearly_percentiles [[3, 7], [1, 9], [5, 2]]
        ⟨0, 0, 0, 1, 0, 0⟩).getD 0 dummyRow).p75 ≤
      ((get_yearly_percentiles [[3, 7], [1, 9], [5, 2]]
        ⟨0, 0, 0, 1, 0, 0⟩).getD 0 dummyRow).p95 :=
  C4_percentile_monotone ⟨0, 0, 0, 1, 0, 0⟩ [[3, 7], [1, 9], [5, 2]]
    (by decide) 0 (by decide)

/-- C5: For every non-empty collection of final balances, the confidence
interval has lower bound the 2.5th percentile and upper bound the 97.5th
percentile (linear interpolation), and lower ≤ median (the 50th
percentile of the final balances) ≤ upper. -/
theorem C5_confidence_interval (xs : List ℚ) (hne : xs ≠ []) :
    get_confidence_levels xs =
      some ((np_percentile xs 2.5).getD 0, (np_percentile xs 97.5).getD 0) ∧
    (np_percentile xs 2.5).getD 0 ≤ (np_percentile xs 50).getD 0 ∧
    (np_percentile xs 50).getD 0 ≤ (np_percentile xs 97.5).getD 0 := by
  refine ⟨get_confidence_levels_of_ne_nil hne, ?_, ?_⟩
  · exact np_percentile_mono hne (by norm_num) (by norm_num) (by norm_num)
  · exact np_percentile_mono hne (by norm_num) (by norm_num) (by norm_num)

theorem C5_confidence_interval_witness :
    get_confidence_levels [4, 1, 6] =
      some ((np_percentile [4, 1, 6] 2.5).getD 0,
        (np_percentile [4, 1, 6] 97.5).getD 0) ∧
    (np_percentile [4, 1, 6] 2.5).getD 0 ≤ (np_percentile [4, 1, 6] 50).getD 0 ∧
    (np_percentile [4, 1, 6] 50).getD 0 ≤ (np_percentile [4, 1, 6] 97.5).getD 0 :=
  C5_confidence_interval [4, 1, 6] (by decide)

theorem perform_monte_carlo_zero (inp : Inputs) (draws : ℕ → ℕ → ℚ) :
    perform_monte_carlo inp 0 draws =
      Except.error "cannot do a non-empty take from an empty axes" := rfl

theorem perform_simulation_neg_vol {inp : Inputs} (hv : inp.volatility < 0)
    (draw : ℕ → ℚ) :
    perform_simulation inp draw = Except.error "scale < 0" := by
  simp [perform_simulation, get_random_returns, hv]

theorem perform_monte_carlo_neg_vol {inp : Inputs} (hv : inp.volatility < 0)
    {n : ℕ} (hn : 1 ≤ n) (draws : ℕ → ℕ → ℚ) :
    perform_monte_carlo inp n draws = Except.error "scale < 0" := by
  obtain ⟨m, rfl⟩ : ∃ m, n = m + 1 := ⟨n - 1, by omega⟩
  simp [perform_monte_carlo, List.range_succ_eq_map, runPaths,
    perform_simulation_neg_vol hv]

/-- C2: For every valid parameter set and every path count `n ≥ 1`, the
Monte Carlo run succeeds and produces exactly `n` final balances, `n`
trajectories and `n` per-path mean returns, and every trajectory has
length `years + 1` with the initial investment at index 0. -/
theorem C2_run_shapes (inp : Inputs) (hval : validInputs inp) (n : ℕ)
    (hn : 1 ≤ n) (draws : ℕ → ℕ → ℚ) :
    ∃ res, perform_monte_carlo inp n draws = Except.ok res ∧
      res.final_balances.length = n ∧ res.results.length = n ∧
      res.mean_returns.length = n ∧
      ∀ t ∈ res.results, t.length = inp.years + 1 ∧
        t.getD 0 0 = inp.initial_investment := by
  refine ⟨_, perform_monte_carlo_ok hval.2.2.2.2 draws hn, ?_, ?_, ?_, ?_⟩
  · simp [outsOf]
  · simp [outsOf]
  · simp [outsOf]
  · intro t ht
    obtain ⟨o, ho, rfl⟩ := List.mem_map.mp ht
    obtain ⟨k, _, rfl⟩ := List.mem_map.mp ho
    exact ⟨by simp [perform_core, yearLoop_snd_length, returnsOf], rfl⟩

theorem C2_run_shapes_witness :
    ∃ res, perform_monte_carlo ⟨50000, 1000, 5000, 20, 2/25, 3/20⟩ 2
        (fun _ _ => 0) = Except.ok res ∧
      res.final_balances.length = 2 ∧ res.results.length = 2 ∧
      res.mean_returns.length = 2 ∧
      ∀ t ∈ res.results, t.length = 20 + 1 ∧ t.getD 0 0 = 50000 :=
  C2_run_shapes ⟨50000, 1000, 5000, 20, 2/25, 3/20⟩
    (by norm_num [validInputs]) 2 (by decide) (fun _ _ => 0)

/-- C6 (counterexample): with zero paths the aggregator does not return a
degenerate result — it fails, because the 97.5th percentile of the empty
final-balance collection hits numpy's empty-array error. -/
theorem C6_zero_paths_counterexample :
    perform_monte_carlo ⟨50000, 1000, 5000, 20, 2/25, 3/20⟩ 0 (fun _ _ => 0) =
      Except.error "cannot do a non-empty take from an empty axes" := rfl

/-- C6 (amended): with a zero horizon, at least one path and admissible
volatility, the aggregator does not fail and degenerates: every trajectory
is the single point `[initial_investment]`, every final balance equals the
initial investment, and the percentile table has exactly one row. (With
zero paths it fails on the empty-collection percentile instead.) -/
theorem C6_degenerate_boundary (inp : Inputs) (hH : inp.years = 0)
    (hv : 0 ≤ inp.volatility) (n : ℕ) (hn : 1 ≤ n) (draws : ℕ → ℕ → ℚ) :
    ∃ res, perform_monte_carlo inp n draws = Except.ok res ∧
      res.results = (List.range n).map (fun _ => [inp.initial_investment]) ∧
      res.final_balances = (List.range n).map (fun _ => inp.initial_investment) ∧
      res.yearly_percentiles.length = 1 := by
  have hret : ∀ k : ℕ, returnsOf inp (draws k) = [] := by
    intro k; simp [returnsOf, hH]
  have hhist : (outsOf inp draws n).map SimOutcome.history =
      (List.range n).map (fun _ => [inp.initial_investment]) := by
    rw [outsOf, List.map_map]
    exact List.map_congr_left
      (fun k _ => by simp [Function.comp, hret k, perform_core, yearLoop])
  refine ⟨_, perform_monte_carlo_ok hv draws hn, hhist, ?_, ?_⟩
  · rw [outsOf, List.map_map]
    exact List.map_congr_left
      (fun k _ => by simp [Function.comp, hret k, perform_core, yearLoop])
  · rw [hhist, get_yearly_percentiles_length]
    refine pyZip_length_of_const (L := 1) ?_ ?_
    · simp only [ne_eq, List.map_eq_nil_iff, List.range_eq_nil]
      omega
    · intro t ht
      obtain ⟨k, _, rfl⟩ := List.mem_map.mp ht
      rfl

theorem C6_degenerate_boundary_witness :
    ∃ res, perform_monte_carlo ⟨100, 1, 2, 0, 0, 0⟩ 1 (fun _ _ => 0) =
        Except.ok res ∧
      res.results = (List.range 1).map (fun _ => [(100 : ℚ)]) ∧
      res.final_balances = (List.range 1).map (fun _ => (100 : ℚ)) ∧
      res.yearly_percentiles.length = 1 :=
  C6_degenerate_boundary ⟨100, 1, 2, 0, 0, 0⟩ rfl (by decide) 1 (by decide)
    (fun _ _ => 0)

/-- C7 (counterexample): a parameter set whose initial investment is
negative — outside its declared domain — is not rejected: the engine runs
to completion and returns a result. -/
theorem C7_out_of_domain_counterexample :
    ((-1 : ℚ) < 0) ∧
    (perform_monte_carlo ⟨-1, 0, 0, 1, 0, 0⟩ 1 (fun _ _ => 0)).isOk = true :=
  ⟨by norm_num, rfl⟩

/-- C7 (amended): only a negative volatility is rejected: the normal
sampler refuses `scale < 0` before any balance arithmetic, so the very
first path aborts and a Monte Carlo run with at least one path surfaces
that error with no partial results; other out-of-domain fields are not
rejected. -/
theorem C7_reject_negative_volatility (inp : Inputs)
    (hv : inp.volatility < 0) (n : ℕ) (hn : 1 ≤ n) (draws : ℕ → ℕ → ℚ) :
    perform_simulation inp (draws 0) = Except.error "scale < 0" ∧
    perform_monte_carlo inp n draws = Except.error "scale < 0" :=
  ⟨perform_simulation_neg_vol hv (draws 0),
   perform_monte_carlo_neg_vol hv hn draws⟩

theorem C7_reject_negative_volatility_witness :
    perform_simulation ⟨0, 0, 0, 1, 0, -1⟩ ((fun _ _ => 0) 0) =
      Except.error "scale < 0" ∧
    perform_monte_carlo ⟨0, 0, 0, 1, 0, -1⟩ 1 (fun _ _ => 0) =
      Except.error "scale < 0" :=
  C7_reject_negative_volatility ⟨0, 0, 0, 1, 0, -1⟩ (by decide) 1 (by decide)
    (fun _ _ => 0)

/-- C8: in a run with exactly one path, every percentile entry (5th,
25th, median, 75th, 95th) of the yearly percentile table at every year
equals that single path's balance at that year. -/
theorem C8_single_path_percentiles (inp : Inputs) (hv : 0 ≤ inp.volatility)
    (draws : ℕ → ℕ → ℚ) :
    ∃ res, perform_monte_carlo inp 1 draws = Except.ok res ∧
      ∃ t, res.results = [t] ∧
        ∀ i, i < res.yearly_percentiles.length →
          ((res.yearly_percentiles.getD i dummyRow).p5 = t.getD i 0 ∧
           (res.yearly_percentiles.getD i dummyRow).p25 = t.getD i 0 ∧
           (res.yearly_percentiles.getD i dummyRow).med = t.getD i 0 ∧
           (res.yearly_percentiles.getD i dummyRow).p75 = t.getD i 0 ∧
           (res.yearly_percentiles.getD i dummyRow).p95 = t.getD i 0) := by
  refine ⟨_, perform_monte_carlo_ok hv draws (by omega), ?_⟩
  refine ⟨(perform_core inp (returnsOf inp (draws 0))).history, ?_, ?_⟩
  · simp [outsOf, List.range_succ]
  · intro i hi
    dsimp only at hi ⊢
    have houts : (outsOf inp draws 1).map SimOutcome.history =
        [(perform_core inp (returnsOf inp (draws 0))).history] := by
      simp [outsOf, List.range_succ]
    rw [houts] at hi ⊢
    have hi' : i < (pyZip [(perform_core inp (returnsOf inp (draws 0))).history]).length := by
      simpa [get_yearly_percentiles_length] using hi
    rw [get_yearly_percentiles_getD hi']
    have hrow : (pyZip [(perform_core inp (returnsOf inp (draws 0))).history]).getD i [] =
        [(perform_core inp (returnsOf inp (draws 0))).history.getD i 0] := by
      simpa using @pyZip_getD
        ((perform_core inp (returnsOf inp (draws 0))).history) [] i hi'
    refine ⟨?_, ?_, ?_, ?_, ?_⟩ <;>
      simp only [hrow, getD_np_percentile_singleton]

theorem C8_single_path_percentiles_witness :
    ∃ res, perform_monte_carlo ⟨100, 10, 5, 1, 0, 0⟩ 1 (fun _ _ => 0) =
        Except.ok res ∧
      ∃ t, res.results = [t] ∧
        ∀ i, i < res.yearly_percentiles.length →
          ((res.yearly_percentiles.getD i dummyRow).p5 = t.getD i 0 ∧
           (res.yearly_percentiles.getD i dummyRow).p25 = t.getD i 0 ∧
           (res.yearly_percentiles.getD i dummyRow).med = t.getD i 0 ∧
           (res.yearly_percentiles.getD i dummyRow).p75 = t.getD i 0 ∧
           (res.yearly_percentiles.getD i dummyRow).p95 = t.getD i 0) :=
  C8_single_path_percentiles ⟨100, 10, 5, 1, 0, 0⟩ (by decide) (fun _ _ => 0)

/-- C10: the scalar final balance the Path Simulator returns equals the
last element (index `H`) of its trajectory, and consequently in a
successful aggregator result the final balances are index-aligned with
the trajectories: `final_balances[k] = results[k][H]` for every path. -/
theorem C10_final_balance_is_last (inp : Inputs) (hv : 0 ≤ inp.volatility)
    (_hH : 1 ≤ inp.years) (n : ℕ) (hn : 1 ≤ n) (draws : ℕ → ℕ → ℚ) :
    (∀ rs : List ℚ, rs.length = inp.years →
      (perform_core inp rs).final_balance =
        (perform_core inp rs).history.getD inp.years 0) ∧
    ∃ res, perform_monte_carlo inp n draws = Except.ok res ∧
      ∀ k, k < n →
        res.final_balances.getD k 0 =
          (res.results.getD k []).getD inp.years 0 := by
  have hcore : ∀ rs : List ℚ, rs.length = inp.years →
      (perform_core inp rs).final_balance =
        (perform_core inp rs).history.getD inp.years 0 := by
    intro rs hlen
    rw [show (perform_core inp rs).history = inp.initial_investment ::
      (yearLoop inp.monthly_contribution inp.yearly_bonus
        inp.initial_investment rs).2 from rfl]
    rw [← hlen]
    exact yearLoop_fst_eq_getD _ _ _ _
  refine ⟨hcore, _, perform_monte_carlo_ok hv draws hn, ?_⟩
  intro k hk
  dsimp only
  simp only [outsOf, List.map_map]
  rw [getD_map_range _ _ hk, getD_map_range _ _ hk]
  simp only [Function.comp_apply]
  exact hcore _ (by simp [returnsOf])

theorem C10_final_balance_is_last_witness :
    (∀ rs : List ℚ, rs.length = 1 →
      (perform_core ⟨50000, 1000, 5000, 1, 2/25, 0⟩ rs).final_balance =
        (perform_core ⟨50000, 1000, 5000, 1, 2/25, 0⟩ rs).history.getD 1 0) ∧
    ∃ res, perform_monte_carlo ⟨50000, 1000, 5000, 1, 2/25, 0⟩ 1
        (fun _ _ => 0) = Except.ok res ∧
      ∀ k, k < 1 →
        res.final_balances.getD k 0 = (res.results.getD k []).getD 1 0 :=
  C10_final_balance_is_last ⟨50000, 1000, 5000, 1, 2/25, 0⟩ (by decide)
    (by decide) 1 (by decide) (fun _ _ => 0)
